import Mathlib

/-!
Shallow embedding of the go-tcp-proxy connection engine
(`proxy` package: proxy.go in its historical variants, config.go).

Conventions:
* Go `[]byte` is `List Nat` (each element a byte value; the Go type system
  guarantees the 0..255 range, which no claim depends on).
* Go `string` is `GoStr`, a wrapper around its byte sequence (Go strings are
  arbitrary byte sequences; conversions `string(b)` / `[]byte(s)` copy bytes
  verbatim).
* The `err` termination helper, the rule-match callbacks and the scanner
  rebuild are modelled as state transitions on an explicit proxy state,
  returning the list of log / channel events they emit, in emission order.
* Fallible external calls (dial, file open, yara compile, regexp compile)
  are threaded in as `Except` parameters: the embedding branches on them
  exactly where the Go code checks the returned `err`.
-/

namespace GoTcpProxy

/-- A Go `error` value as seen by `Proxy.err`: either `io.EOF` or any other
error (carrying its message). -/
inductive GoErr where
  | eof : GoErr
  | other : String → GoErr
deriving DecidableEq, Repr

/-- Observable events emitted by the proxy code: leveled log calls and a send
on the `errsig` channel. -/
inductive PEvent where
  | infoEv : String → PEvent
  | warnEv : String → PEvent
  | warnDataEv : String → List Nat → PEvent
  | signalEv : PEvent
  | bellEv : PEvent
deriving DecidableEq, Repr

/-- The termination-relevant state of a `Proxy`: the `erred` flag and the
number of signals sent on the (once-received) `errsig` channel. -/
structure ErrState where
  erred : Bool
  signals : Nat
deriving DecidableEq, Repr

/-- `Proxy` state as produced by `New`: `erred: false`, fresh channel. -/
def freshErrState : ErrState := { erred := false, signals := 0 }

/-- `Proxy.err` (proxy.go lines 189-198 / 383-392 / 646-655, identical in all
three variants): if `p.erred` already holds, return at once; otherwise warn
unless the error is `io.EOF`, send on `errsig`, and set `erred`.  Each call is
modelled as one atomic transition returning the emitted events in order. -/
def errCall (s : String) (e : GoErr) (st : ErrState) : ErrState × List PEvent :=
  if st.erred then (st, [])
  else ({ erred := true, signals := st.signals + 1 },
        (if e = GoErr.eof then [] else [PEvent.warnEv s]) ++ [PEvent.signalEv])

/-- C2: the termination signal is idempotent — a session already marked
`erred` ignores every further `err` call (state and events unchanged), and a
double failure (one `err` call from each pump, in either order with any two
errors) yields exactly one signal on the termination channel, with the
session left marked `erred`. -/
theorem err_idempotent_single_signal :
    (∀ (s : String) (e : GoErr) (st : ErrState),
       st.erred = true → errCall s e st = (st, [])) ∧
    (∀ (s₁ s₂ : String) (e₁ e₂ : GoErr),
       ((errCall s₂ e₂ (errCall s₁ e₁ freshErrState).1).1).signals = 1 ∧
       ((errCall s₂ e₂ (errCall s₁ e₁ freshErrState).1).1).erred = true) := by
  constructor
  · intro s e st h
    simp [errCall, h]
  · intro s₁ s₂ e₁ e₂
    simp [errCall, freshErrState]

/-- Witness for C2 at concrete inputs: an already-erred state is left
untouched, and two concrete failing calls from a fresh session produce
exactly one signal. -/
theorem err_idempotent_single_signal_witness :
    errCall "Read failed" (GoErr.other "reset") { erred := true, signals := 1 } =
      ({ erred := true, signals := 1 }, []) ∧
    ((errCall "Write failed" GoErr.eof
        (errCall "Read failed" (GoErr.other "reset") freshErrState).1).1).signals = 1 :=
  ⟨err_idempotent_single_signal.1 "Read failed" (GoErr.other "reset")
      { erred := true, signals := 1 } rfl,
   (err_idempotent_single_signal.2 "Read failed" "Write failed"
      (GoErr.other "reset") GoErr.eof).1⟩

/-- C8: on a not-yet-erred session, `err` emits a warning if and only if the
error is not `io.EOF`, and the warning (when present) precedes the
termination signal; EOF terminates with the signal alone. -/
theorem err_warn_iff_not_eof (s : String) (e : GoErr) (st : ErrState)
    (h : st.erred = false) :
    (errCall s e st).2 =
      if e = GoErr.eof then [PEvent.signalEv] else [PEvent.warnEv s, PEvent.signalEv] := by
  by_cases he : e = GoErr.eof <;> simp [errCall, h, he]

/-- Witness for C8: a concrete non-EOF error warns then signals, a concrete
EOF only signals. -/
theorem err_warn_iff_not_eof_witness :
    (errCall "Read failed" (GoErr.other "reset") freshErrState).2 =
      [PEvent.warnEv "Read failed", PEvent.signalEv] ∧
    (errCall "Read failed" GoErr.eof freshErrState).2 = [PEvent.signalEv] :=
  ⟨by
    have h := err_warn_iff_not_eof "Read failed" (GoErr.other "reset") freshErrState rfl
    simpa using h,
   by
    have h := err_warn_iff_not_eof "Read failed" GoErr.eof freshErrState rfl
    simpa using h⟩

/-! ## The directional pump (`Proxy.pipe`)

Per-chunk processing of `pipe` in the Matcher/Replacers/Scanner variant of
proxy.go (lines 657-719; the Matcher/Replacers variant at lines 394-447 is
the same with the scanner step absent).  A chunk's processing is the event
trace it produces; replacers are interface values, modelled as bare
functions on byte lists. -/

/-- Per-chunk observable actions of `pipe`, in execution order. -/
inductive PipeEv where
  | matcherEv : List Nat → PipeEv
  | scanEv : List Nat → PipeEv
  | writeEv : List Nat → PipeEv
deriving DecidableEq, Repr

/-- The replacer loop of `pipe`: `for _, replacer := range p.Replacers
{ b = replacer.Replace(b) }`. -/
def applyReplacers : List (List Nat → List Nat) → List Nat → List Nat
  | [], b => b
  | f :: fs, b => applyReplacers fs (f b)

/-- One iteration body of `Proxy.pipe` (proxy.go lines 687-711) after a
successful read of chunk `b`: invoke the Matcher if attached, fold the
replacer chain, scan only when a Scanner is attached *and* the source is the
local connection (`islocal`), then write the transformed bytes.  Returns the
ordered event trace of the iteration. -/
def pipeChunk (hasMatcher : Bool) (replacers : List (List Nat → List Nat))
    (hasScanner : Bool) (islocal : Bool) (b : List Nat) : List PipeEv :=
  (if hasMatcher then [PipeEv.matcherEv b] else []) ++
    (let b2 := applyReplacers replacers b
     (if hasScanner ∧ islocal then [PipeEv.scanEv b2] else []) ++ [PipeEv.writeEv b2])

/-- Counterexample to C1 as stated: on a remote-to-local chunk
(`islocal = false`) with a Matcher attached, the Matcher *is* invoked on the
raw received bytes — the claim that only the Replacer Chain applies in the
reverse direction is false at this input. -/
theorem pipe_reverse_matcher_invoked :
    PipeEv.matcherEv [0] ∈ pipeChunk true [] true false [0] := by
  simp [pipeChunk, applyReplacers]

/-- C1 amended: per chunk, the local-to-remote direction runs Matcher on the
raw bytes, then the replacer chain, then the Scanner on the
replacer-transformed bytes, then the write; the remote-to-local direction
omits only the Scanner — the Matcher (when attached) still runs on the raw
bytes, followed by the replacer chain and the write. -/
theorem pipe_chunk_order (replacers : List (List Nat → List Nat)) (b : List Nat) :
    pipeChunk true replacers true true b =
      [PipeEv.matcherEv b, PipeEv.scanEv (applyReplacers replacers b),
       PipeEv.writeEv (applyReplacers replacers b)] ∧
    pipeChunk true replacers true false b =
      [PipeEv.matcherEv b, PipeEv.writeEv (applyReplacers replacers b)] ∧
    pipeChunk false replacers true false b =
      [PipeEv.writeEv (applyReplacers replacers b)] := by
  refine ⟨?_, ?_, ?_⟩ <;> simp [pipeChunk]

/-! ## `Proxy.Start` (all variants, e.g. proxy.go lines 66-105)

`Start` defers `lconn.Close()`, dials the remote (TLS or plain TCP), and on
dial failure logs a warning and returns — the `rconn` close is never
deferred, the pump goroutines are never launched, and the byte counters keep
the zero values `New` gave them.  On success it defers `rconn.Close()`,
launches both pumps, blocks on `errsig`, and reports the final counters. -/

/-- The outcome of one `Start` call, as observable effects. -/
structure StartTrace where
  warned : Bool
  lconnClosed : Bool
  rconnClosed : Bool
  pumpsLaunched : Bool
  sentBytes : Nat
  receivedBytes : Nat
deriving DecidableEq, Repr

/-- `Proxy.Start` on a proxy fresh from `New` (counters zero).  `dialRes` is
the result of `tls.Dial` / `net.DialTCP`; `runSession` abstracts the byte
counts the two pumps accumulate before the first termination signal is
received, starting from the zero-initialised counters. -/
def start (dialRes : Except String Unit) (runSession : Nat × Nat → Nat × Nat) :
    StartTrace :=
  match dialRes with
  | Except.error _ =>
      { warned := true, lconnClosed := true, rconnClosed := false,
        pumpsLaunched := false, sentBytes := 0, receivedBytes := 0 }
  | Except.ok _ =>
      let c := runSession (0, 0)
      { warned := false, lconnClosed := true, rconnClosed := true,
        pumpsLaunched := true, sentBytes := c.1, receivedBytes := c.2 }

/-- C7: when the remote dial fails, `Start` warns, closes the local
connection, never launches a pump, and both byte counters are zero —
whatever the session would have transferred had the dial succeeded. -/
theorem start_dial_failure (e : String) (runSession : Nat × Nat → Nat × Nat) :
    start (Except.error e) runSession =
      { warned := true, lconnClosed := true, rconnClosed := false,
        pumpsLaunched := false, sentBytes := 0, receivedBytes := 0 } := rfl

/-! ## Scanner rebuild on hot reload (`Proxy.rebuildScanner`, proxy.go 117-139)

The yara-watcher variant logs "rulefile updated", then opens the rule file,
reads the rules, and builds a new scanner; each failing step warns and
returns without assigning `p.Scanner`, and the function never calls `p.err`
— the termination state is passed through untouched by construction, exactly
as in the source, which contains no `err` call. -/

/-- `Proxy.rebuildScanner`.  `openRes`, `readRes`, `newScanRes` are the
results of `os.Open`, `yara.ReadRules` and `yara.NewScanner`; compiled
scanners are identified by a `Nat`.  Returns the scanner slot, the
(untouched) termination state, and the emitted log events. -/
def rebuildScanner (openRes readRes : Except String Unit)
    (newScanRes : Except String Nat) (scanner : Option Nat) (st : ErrState) :
    Option Nat × ErrState × List PEvent :=
  let evs := [PEvent.infoEv "rulefile updated"]
  match openRes with
  | Except.error _ => (scanner, st, evs ++ [PEvent.warnEv "failed to open yara rule file"])
  | Except.ok _ =>
    match readRes with
    | Except.error _ => (scanner, st, evs ++ [PEvent.warnEv "error reading yara rules in file"])
    | Except.ok _ =>
      match newScanRes with
      | Except.error _ =>
          (scanner, st, evs ++ [PEvent.warnEv "failed to compile yara scanner for rules from file"])
      | Except.ok sc => (some sc, st, evs)

/-- C5: if any step of a scanner rebuild fails (file open, rule read, or
scanner compile), the previously active scanner reference is unchanged, the
termination state of the session is unchanged (no `err` call is made), and a
warning is among the emitted events. -/
theorem rebuildScanner_failure_keeps_scanner (openRes readRes : Except String Unit)
    (newScanRes : Except String Nat) (scanner : Option Nat) (st : ErrState)
    (h : openRes.isOk = false ∨ readRes.isOk = false ∨ newScanRes.isOk = false) :
    (rebuildScanner openRes readRes newScanRes scanner st).1 = scanner ∧
    (rebuildScanner openRes readRes newScanRes scanner st).2.1 = st ∧
    ∃ w, PEvent.warnEv w ∈ (rebuildScanner openRes readRes newScanRes scanner st).2.2 := by
  match openRes, readRes, newScanRes with
  | Except.error e, _, _ => simp [rebuildScanner]
  | Except.ok _, Except.error e, _ => simp [rebuildScanner]
  | Except.ok _, Except.ok _, Except.error e => simp [rebuildScanner]
  | Except.ok _, Except.ok _, Except.ok sc => simp [Except.isOk, Except.toBool] at h

/-- Witness for C5: a concrete failed compile leaves a concrete previous
scanner in place, leaves the termination state alone, and warns. -/
theorem rebuildScanner_failure_keeps_scanner_witness :
    (rebuildScanner (Except.ok ()) (Except.ok ()) (Except.error "syntax error")
        (some 7) freshErrState).1 = some 7 ∧
    (rebuildScanner (Except.ok ()) (Except.ok ()) (Except.error "syntax error")
        (some 7) freshErrState).2.1 = freshErrState ∧
    ∃ w, PEvent.warnEv w ∈ (rebuildScanner (Except.ok ()) (Except.ok ())
        (Except.error "syntax error") (some 7) freshErrState).2.2 :=
  rebuildScanner_failure_keeps_scanner (Except.ok ()) (Except.ok ())
    (Except.error "syntax error") (some 7) freshErrState
    (Or.inr (Or.inr (by simp [Except.isOk, Except.toBool])))

/-! ## The compiled-ruleset cache (`Proxy.LoadYaraConfig`, proxy.go 721-767)

The process-wide `scanners sync.Map` maps a rule file's modification time to
a compiled scanner.  `LoadYaraConfig` stats the file; a cache hit installs
the cached scanner and returns without compiling; a miss compiles and, on
success, `Range`-deletes every existing entry before storing the new one, so
the cache is single-generation.  Modification times and compiled scanners
are identified by `Nat`; the `sync.Map` is an association list. -/

/-- The cache and the proxy's scanner slot. -/
structure YaraCacheState where
  cache : List (Nat × Nat)
  scanner : Option Nat
deriving DecidableEq, Repr

/-- `Proxy.LoadYaraConfig` for a file whose modification time is `mt`.
`compileRes` is the combined result of the compiler pipeline
(`yara.NewCompiler` / `os.Open` / `AddFile` / `GetRules` / `NewScanner`),
consulted only on a cache miss.  Returns the new state, whether the compile
path was taken, and the call's result. -/
def loadYaraConfig (mt : Nat) (compileRes : Except String Nat)
    (st : YaraCacheState) : YaraCacheState × Bool × Except String Unit :=
  match st.cache.lookup mt with
  | some sc => ({ st with scanner := some sc }, false, Except.ok ())
  | none =>
    match compileRes with
    | Except.error e => (st, true, Except.error e)
    | Except.ok sc =>
        ({ cache := [(mt, sc)], scanner := some sc }, true, Except.ok ())

/-- C4: a lookup with a previously-seen modification time returns the cached
scanner without taking the compile path and leaves the cache untouched; a
lookup with a new modification time takes the compile path and, on success,
evicts every other entry, leaving the new scanner as the sole cached
generation. -/
theorem loadYaraConfig_cache_single_generation :
    (∀ (mt : Nat) (res : Except String Nat) (st : YaraCacheState) (sc : Nat),
       st.cache.lookup mt = some sc →
       loadYaraConfig mt res st =
         ({ st with scanner := some sc }, false, Except.ok ())) ∧
    (∀ (mt sc : Nat) (st : YaraCacheState),
       st.cache.lookup mt = none →
       loadYaraConfig mt (Except.ok sc) st =
         ({ cache := [(mt, sc)], scanner := some sc }, true, Except.ok ())) := by
  constructor
  · intro mt res st sc h
    simp [loadYaraConfig, h]
  · intro mt sc st h
    simp [loadYaraConfig, h]

/-- Witness for C4: with two cached generations, looking up the first key
hits without compiling and changes nothing in the cache, while a fresh key
compiles and leaves the new entry as the only one. -/
theorem loadYaraConfig_cache_single_generation_witness :
    loadYaraConfig 1 (Except.error "unused") ⟨[(1, 10), (2, 20)], none⟩ =
      (⟨[(1, 10), (2, 20)], some 10⟩, false, Except.ok ()) ∧
    loadYaraConfig 3 (Except.ok 30) ⟨[(1, 10), (2, 20)], none⟩ =
      (⟨[(3, 30)], some 30⟩, true, Except.ok ()) :=
  ⟨loadYaraConfig_cache_single_generation.1 1 (Except.error "unused")
      ⟨[(1, 10), (2, 20)], none⟩ 10 (by decide),
   loadYaraConfig_cache_single_generation.2 3 30
      ⟨[(1, 10), (2, 20)], none⟩ (by decide)⟩

/-! ## Rule-match callbacks (`Proxy.RuleMatching`)

Two historical variants exist.  The tag-scheme variant (proxy.go 141-160)
iterates the matched rule's tags: `log` logs, `warn` warns, `drop` calls
`p.err`, and afterwards inspects the `sub` metadata (`getSubstitution`,
proxy.go 162-187).  The identifier-scheme variant (proxy.go 626-644) warns
about the match and its string data, returns without terminating when the
identifier starts with `log_` (ringing the bell if configured), and
otherwise calls `p.err`. -/

/-- `strings.ToLower` restricted to ASCII (rule tags and identifiers are
ASCII); executable model mapping each upper-case letter to lower case. -/
def goToLower (s : String) : String :=
  ⟨s.data.map (fun c => if 'A' ≤ c ∧ c ≤ 'Z' then Char.ofNat (c.toNat + 32) else c)⟩

/-- `strings.HasPrefix`. -/
def goStartsWith (s pre : String) : Bool := pre.data.isPrefixOf s.data

/-- `strings.HasSuffix`. -/
def goEndsWith (s suf : String) : Bool := suf.data.reverse.isPrefixOf s.data.reverse

/-- A yara meta value (`yara.Meta.Value` is `interface{}`: string, int or
bool for parsed rules). -/
inductive MetaVal where
  | str : String → MetaVal
  | intV : Int → MetaVal
  | boolV : Bool → MetaVal
deriving DecidableEq, Repr

/-- A matched yara rule as the callbacks consume it: identifier, tags,
metas (identifier/value pairs) and the matched strings (string identifier
paired with the match data of each match). -/
structure YRule where
  identifier : String
  tags : List String
  metas : List (String × MetaVal)
  strings : List (String × List (List Nat))
deriving DecidableEq, Repr

/-- One hex digit's value, as `encoding/hex` accepts them. -/
def hexDigitVal (c : Char) : Option Nat :=
  if '0' ≤ c ∧ c ≤ '9' then some (c.toNat - 48)
  else if 'a' ≤ c ∧ c ≤ 'f' then some (c.toNat - 87)
  else if 'A' ≤ c ∧ c ≤ 'F' then some (c.toNat - 55)
  else none

/-- `hex.DecodeString` over a character list: pairs of hex digits, failing
on an odd length or a non-digit. -/
def hexDecodeChars : List Char → Option (List Nat)
  | [] => some []
  | [_] => none
  | c1 :: c2 :: rest =>
    match hexDigitVal c1, hexDigitVal c2, hexDecodeChars rest with
    | some h, some l, some bs => some ((16 * h + l) :: bs)
    | _, _, _ => none

/-- `Proxy.getSubstitution` (proxy.go 162-187): scan the metas for a `sub`
key (case-insensitively); a non-string value warns and is skipped; a string
of the form `{ .. }` is trimmed (`TrimLeft " {"` / `TrimRight "} "`),
space-stripped and hex-decoded, warning and skipping on a decode failure;
the first successful decode is returned. -/
def getSubstitution : List (String × MetaVal) → Option (List Nat) × List PEvent
  | [] => (none, [])
  | (id, v) :: rest =>
    if goToLower id = "sub" then
      match v with
      | MetaVal.str mvs =>
        if goStartsWith mvs "\x7b " ∧ goEndsWith mvs " \x7d" then
          let ltrimmed := mvs.data.dropWhile (fun c => c = ' ' ∨ c = '{')
          let rtrimmed := (ltrimmed.reverse.dropWhile (fun c => c = '}' ∨ c = ' ')).reverse
          match hexDecodeChars (rtrimmed.filter (fun c => c ≠ ' ')) with
          | some bs => (some bs, [])
          | none =>
            let r := getSubstitution rest
            (r.1, PEvent.warnEv "failed to parse substitution value as yara hex bytes" :: r.2)
        else getSubstitution rest
      | _ =>
        let r := getSubstitution rest
        (r.1, PEvent.warnEv "substitution metadata value should be a string" :: r.2)
    else getSubstitution rest

/-- One iteration of the tag loop in the tag-scheme `RuleMatching`. -/
def tagStep (id : String) (acc : ErrState × List PEvent) (tag : String) :
    ErrState × List PEvent :=
  let acc2 := if goToLower tag = "log"
    then (acc.1, acc.2 ++ [PEvent.infoEv ("match found for rule " ++ id)]) else acc
  let acc3 := if goToLower tag = "warn"
    then (acc2.1, acc2.2 ++ [PEvent.warnEv ("match found for rule " ++ id)]) else acc2
  if goToLower tag = "drop" then
    let e := errCall "dropping connection" (GoErr.other ("match on rule " ++ id)) acc3.1
    (e.1, acc3.2 ++ e.2)
  else acc3

/-- Tag-scheme `Proxy.RuleMatching` (proxy.go 141-160): run the tag loop,
then inspect the `sub` metadata (whose result the function discards, logging
aside). -/
def ruleMatchingTags (r : YRule) (st : ErrState) : ErrState × List PEvent :=
  let a := r.tags.foldl (tagStep r.identifier) (st, [])
  (a.1, a.2 ++ (getSubstitution r.metas).2)

/-- Identifier-scheme `Proxy.RuleMatching` (proxy.go 626-644): warn about
the match and each match's data; a `log_`-prefixed identifier returns `true`
(continue scanning) without terminating, anything else calls `p.err` and
returns `false`. -/
def ruleMatchingId (bell : Bool) (r : YRule) (st : ErrState) :
    ErrState × (List PEvent × Bool) :=
  let evs0 := PEvent.warnEv ("Rule " ++ r.identifier ++ " matched") ::
    r.strings.flatMap (fun s => s.2.map (fun m => PEvent.warnDataEv s.1 m))
  if goStartsWith r.identifier "log_" then
    (st, (evs0 ++ (if bell then [PEvent.bellEv] else []), true))
  else
    let e := errCall "connection terminated due to rule match on rule %s"
      (GoErr.other r.identifier) st
    (e.1, (evs0 ++ e.2, false))

/-- Counterexample to C6 as stated: in the tag-scheme callback, a matched
rule carrying none of the `log`/`warn`/`drop` tags and no `log_` identifier
prefix produces no action at all — the session is not terminated (`erred`
stays `false`, no signal is sent), refuting the claimed default drop. -/
theorem ruleMatchingTags_no_default_drop :
    ruleMatchingTags { identifier := "evil", tags := [], metas := [], strings := [] }
      freshErrState = (freshErrState, []) ∧ freshErrState.erred = false := by
  constructor
  · rfl
  · rfl

/-- C6 amended: only the identifier-scheme callback defaults to drop —
there, every matched rule whose identifier does not start with `log_`
terminates the (not yet erred) session with exactly one signal, regardless
of its tags; in the tag-scheme callback a rule with no `drop` tag never
changes the termination state. -/
theorem ruleMatching_default_action :
    (∀ (bell : Bool) (r : YRule) (st : ErrState),
       goStartsWith r.identifier "log_" = false → st.erred = false →
       (ruleMatchingId bell r st).1 = { erred := true, signals := st.signals + 1 }) ∧
    (∀ (r : YRule) (st : ErrState),
       (∀ t ∈ r.tags, goToLower t ≠ "drop") → (ruleMatchingTags r st).1 = st) := by
  constructor
  · intro bell r st hid herr
    simp [ruleMatchingId, hid, errCall, herr]
  · intro r st htags
    have key : ∀ (tags : List String) (acc : ErrState × List PEvent),
        (∀ t ∈ tags, goToLower t ≠ "drop") →
        (tags.foldl (tagStep r.identifier) acc).1 = acc.1 := by
      intro tags
      induction tags with
      | nil => intro acc _; rfl
      | cons t ts ih =>
        intro acc h
        have ht : goToLower t ≠ "drop" := h t (List.mem_cons_self t ts)
        have hts : ∀ u ∈ ts, goToLower u ≠ "drop" := fun u hu => h u (List.mem_cons_of_mem t hu)
        rw [List.foldl_cons, ih _ hts]
        by_cases h1 : goToLower t = "log" <;> by_cases h2 : goToLower t = "warn" <;>
          simp [tagStep, ht, h1, h2]
    simpa [ruleMatchingTags] using key r.tags (st, []) htags

/-- Witness for C6's amended theorem: a concrete untagged rule terminates a
fresh session under the identifier scheme, and a concrete `log`-tagged rule
leaves the state unchanged under the tag scheme. -/
theorem ruleMatching_default_action_witness :
    (ruleMatchingId false { identifier := "evil", tags := [], metas := [], strings := [] }
       freshErrState).1 = { erred := true, signals := 1 } ∧
    (ruleMatchingTags { identifier := "benign", tags := ["log"], metas := [], strings := [] }
       freshErrState).1 = freshErrState :=
  ⟨ruleMatching_default_action.1 false
      { identifier := "evil", tags := [], metas := [], strings := [] }
      freshErrState (by decide) rfl,
   ruleMatching_default_action.2
      { identifier := "benign", tags := ["log"], metas := [], strings := [] }
      freshErrState (by decide)⟩

/-! ## Replacer configuration (config.go)

`ReplacerConfig` carries a type tag and `interface{}`-typed `find` /
`replace` values as the yaml loader produced them.  `Parse` (config.go
67-122) validates one item; `parseByteSlice` (config.go 124-141) converts an
`[]interface{}` to bytes; `LoadConfig` (config.go 143-160) folds `Parse`
over the parsed list, aggregating failures and appending successes. -/

/-- A Go `string` as a byte sequence (Go strings may hold arbitrary bytes). -/
structure GoStr where
  data : List Nat
deriving DecidableEq, Repr

/-- A decoded yaml value as Go's yaml parser leaves it in an `interface{}`:
a string, an int, a nested list, or nil (field absent). -/
inductive Yaml where
  | str : GoStr → Yaml
  | intV : Int → Yaml
  | list : List Yaml → Yaml
  | null : Yaml

/-- The `%T` rendering of the Go value behind a `Yaml`. -/
def yamlTypeName : Yaml → String
  | Yaml.str _ => "string"
  | Yaml.intV _ => "int"
  | Yaml.list _ => "[]interface {}"
  | Yaml.null => "<nil>"

/-- Errors of `parseByteSlice`, carrying exactly what the `fmt.Errorf`
format strings embed: the wrong-type error names the value's type and its
index, the out-of-range error names only the offending value. -/
inductive ByteSliceErr where
  | badType : String → Nat → ByteSliceErr
  | outOfRange : Int → ByteSliceErr
deriving DecidableEq, Repr

/-- The element index embedded in a `parseByteSlice` error message, if any
(`"value of type %T at index %d"` has one, `"value out of range for byte:
%d"` does not). -/
def byteSliceErrIndex : ByteSliceErr → Option Nat
  | ByteSliceErr.badType _ i => some i
  | ByteSliceErr.outOfRange _ => none

/-- `parseByteSlice`'s loop from element index `i`: each element must be an
`int` in `[0,255]`; the first offending element aborts with its error. -/
def parseByteSliceAux (i : Nat) : List Yaml → Except ByteSliceErr (List Nat)
  | [] => Except.ok []
  | e :: rest =>
    match e with
    | Yaml.intV v =>
      if v < 0 ∨ v > 255 then Except.error (ByteSliceErr.outOfRange v)
      else
        match parseByteSliceAux (i + 1) rest with
        | Except.error er => Except.error er
        | Except.ok bs => Except.ok (v.toNat :: bs)
    | other => Except.error (ByteSliceErr.badType (yamlTypeName other) i)

/-- `parseByteSlice` (config.go 124-141). -/
def parseByteSlice (s : List Yaml) : Except ByteSliceErr (List Nat) :=
  parseByteSliceAux 0 s

/-- `StringReplacer` (fields `in`/`out` in Go; `in` is reserved in Lean). -/
structure StringReplacer where
  inS : GoStr
  outS : GoStr
deriving DecidableEq, Repr

/-- `RegexReplacer`; the compiled `regexp.Regexp` is identified by the
compiler's output token. -/
structure RegexReplacer where
  Pattern : String
  Replacement : GoStr
deriving DecidableEq, Repr

/-- `BytesReplacer`. -/
structure BytesReplacer where
  In : List Nat
  Out : List Nat
deriving DecidableEq, Repr

/-- A parsed replacer, one of the three variants behind the `Replacer`
interface. -/
inductive ParsedReplacer where
  | string : StringReplacer → ParsedReplacer
  | regex : RegexReplacer → ParsedReplacer
  | bytes : BytesReplacer → ParsedReplacer
deriving DecidableEq, Repr

/-- Errors of `ReplacerConfig.Parse`, one constructor per `fmt.Errorf` site,
carrying what the format string embeds. -/
inductive ParseErr where
  | noSubstring
  | replacementNotString
  | noRegexPattern
  | regexCompileFailed : String → ParseErr
  | findNotSlice : String → ParseErr
  | replaceNotSlice : String → ParseErr
  | findBytesErr : ByteSliceErr → ParseErr
  | replaceBytesErr : ByteSliceErr → ParseErr
  | noSearchBytes
  | unsupportedType : String → ParseErr
deriving DecidableEq, Repr

/-- The parsed in-memory shape of one config item. -/
structure ReplacerConfig where
  ReplacerType : String
  Find : Yaml
  Replace : Yaml

/-- `ReplacerConfig.Parse` (config.go 67-122).  `regexpCompile` threads in
`regexp.Compile` (pattern source to compiled pattern, or a diagnostic).
Both not-a-slice errors print `%T` of `r.Replace`, as the source does. -/
def ReplacerConfig.Parse (regexpCompile : String → Except String String)
    (r : ReplacerConfig) : Except ParseErr ParsedReplacer :=
  if r.ReplacerType ∈ ["substring", "str", "string", "ss", "substr"] then
    match r.Find with
    | Yaml.str findStr =>
      if findStr.data.isEmpty then Except.error ParseErr.noSubstring
      else
        match r.Replace with
        | Yaml.str replStr => Except.ok (ParsedReplacer.string ⟨findStr, replStr⟩)
        | _ => Except.error ParseErr.replacementNotString
    | _ => Except.error ParseErr.noSubstring
  else if r.ReplacerType ∈ ["regex", "regexp", "re", "reg"] then
    match r.Find with
    | Yaml.str patternStr =>
      if patternStr.data.isEmpty then Except.error ParseErr.noRegexPattern
      else
        match regexpCompile (String.mk (patternStr.data.map Char.ofNat)) with
        | Except.error diag => Except.error (ParseErr.regexCompileFailed diag)
        | Except.ok compiled =>
          match r.Replace with
          | Yaml.str replStr => Except.ok (ParsedReplacer.regex ⟨compiled, replStr⟩)
          | _ => Except.error ParseErr.replacementNotString
    | _ => Except.error ParseErr.noRegexPattern
  else if r.ReplacerType = "bytes" then
    match r.Find with
    | Yaml.list iFindBytes =>
      match r.Replace with
      | Yaml.list iReplaceBytes =>
        match parseByteSlice iFindBytes with
        | Except.error e => Except.error (ParseErr.findBytesErr e)
        | Except.ok findBytes =>
          match parseByteSlice iReplaceBytes with
          | Except.error e => Except.error (ParseErr.replaceBytesErr e)
          | Except.ok replaceBytes =>
            if findBytes.isEmpty then Except.error ParseErr.noSearchBytes
            else Except.ok (ParsedReplacer.bytes ⟨findBytes, replaceBytes⟩)
      | other => Except.error (ParseErr.replaceNotSlice (yamlTypeName other))
    | _ => Except.error (ParseErr.findNotSlice (yamlTypeName r.Replace))
  else
    Except.error (ParseErr.unsupportedType r.ReplacerType)

/-- The loop body of `LoadConfig`: parse one item, appending the error to
the aggregate or the replacer to the chain. -/
def loadConfigStep (regexpCompile : String → Except String String)
    (acc : List ParsedReplacer × List ParseErr) (r : ReplacerConfig) :
    List ParsedReplacer × List ParseErr :=
  match ReplacerConfig.Parse regexpCompile r with
  | Except.error e => (acc.1, acc.2 ++ [e])
  | Except.ok rep => (acc.1 ++ [rep], acc.2)

/-- `Proxy.LoadConfig` (config.go 143-160) after yaml decoding: fold the
parsed items over the proxy's existing replacer chain `replacers0`,
returning the grown chain and the aggregated (`multierror`) list, empty when
no item failed. -/
def loadConfig (regexpCompile : String → Except String String)
    (replacers0 : List ParsedReplacer) (configs : List ReplacerConfig) :
    List ParsedReplacer × List ParseErr :=
  configs.foldl (loadConfigStep regexpCompile) (replacers0, [])

/-- A `regexp.Compile` stand-in that accepts every pattern (the claims below
hold for every compile function; concrete instances use this one). -/
def regexpCompileOk : String → Except String String := fun s => Except.ok s

/-- Unfolding of the `LoadConfig` fold: successes extend the chain in order,
failures land in the aggregate list in order. -/
theorem loadConfig_foldl_spec (cp : String → Except String String) :
    ∀ (cfgs : List ReplacerConfig) (acc : List ParsedReplacer × List ParseErr),
      cfgs.foldl (loadConfigStep cp) acc =
        (acc.1 ++ cfgs.filterMap (fun r => (ReplacerConfig.Parse cp r).toOption),
         acc.2 ++ cfgs.filterMap (fun r =>
           match ReplacerConfig.Parse cp r with
           | Except.error e => some e
           | Except.ok _ => none)) := by
  intro cfgs
  induction cfgs with
  | nil => intro acc; simp
  | cons r rest ih =>
    intro acc
    rw [List.foldl_cons, ih]
    unfold loadConfigStep
    match h : ReplacerConfig.Parse cp r with
    | Except.error e => simp [h, Except.toOption]
    | Except.ok rep => simp [h, Except.toOption]

/-- The well-formed item of C3's concrete instance:
`{type: substring, find: "foo", replace: "bar"}`. -/
def goodItem : ReplacerConfig :=
  { ReplacerType := "substring",
    Find := Yaml.str ⟨[102, 111, 111]⟩, Replace := Yaml.str ⟨[98, 97, 114]⟩ }

/-- The malformed item of C3's concrete instance: a substring item whose
`find` field is absent. -/
def badItem : ReplacerConfig :=
  { ReplacerType := "substring", Find := Yaml.null, Replace := Yaml.str ⟨[98, 97, 114]⟩ }

/-- C3: `LoadConfig` validates items independently — the resulting chain is
the prior chain extended by exactly the items whose `Parse` succeeded, in
order, and the aggregate holds exactly the error of each failing item, in
order; in particular one well-formed and one malformed item yield a
non-empty aggregate together with a chain holding exactly the well-formed
entry. -/
theorem loadConfig_not_fail_fast :
    (∀ (cp : String → Except String String) (init : List ParsedReplacer)
       (cfgs : List ReplacerConfig),
       (loadConfig cp init cfgs).1 =
         init ++ cfgs.filterMap (fun r => (ReplacerConfig.Parse cp r).toOption) ∧
       (loadConfig cp init cfgs).2 =
         cfgs.filterMap (fun r =>
           match ReplacerConfig.Parse cp r with
           | Except.error e => some e
           | Except.ok _ => none)) ∧
    (loadConfig regexpCompileOk [] [goodItem, badItem]).2 ≠ [] ∧
    (loadConfig regexpCompileOk [] [goodItem, badItem]).1 =
      [ParsedReplacer.string ⟨⟨[102, 111, 111]⟩, ⟨[98, 97, 114]⟩⟩] := by
  refine ⟨?_, ?_, ?_⟩
  · intro cp init cfgs
    rw [loadConfig, loadConfig_foldl_spec]
    exact ⟨rfl, rfl⟩
  · decide
  · decide

/-- `parseByteSlice` accepts a list all of whose elements are ints in
`[0,255]`, returning one byte per element. -/
theorem parseByteSliceAux_ok (l : List Yaml) :
    ∀ i, (l.all fun y => match y with
            | Yaml.intV v => decide (0 ≤ v ∧ v ≤ 255)
            | _ => false) = true →
      ∃ bs, parseByteSliceAux i l = Except.ok bs ∧ bs.length = l.length := by
  induction l with
  | nil => intro i _; exact ⟨[], rfl, rfl⟩
  | cons y rest ih =>
    intro i h
    rw [List.all_cons, Bool.and_eq_true] at h
    obtain ⟨hy, hrest⟩ := h
    match y with
    | Yaml.intV v =>
      have hv : 0 ≤ v ∧ v ≤ 255 := of_decide_eq_true hy
      obtain ⟨bs, hbs, hlen⟩ := ih (i + 1) hrest
      refine ⟨v.toNat :: bs, ?_, by simp [hlen]⟩
      have hcond : ¬(v < 0 ∨ v > 255) := by omega
      simp [parseByteSliceAux, hcond, hbs]

/-- `parseByteSlice` rejects a list with any element that is not an int in
`[0,255]`. -/
theorem parseByteSliceAux_err (l : List Yaml) :
    ∀ i, (l.all fun y => match y with
            | Yaml.intV v => decide (0 ≤ v ∧ v ≤ 255)
            | _ => false) = false →
      ∃ e, parseByteSliceAux i l = Except.error e := by
  induction l with
  | nil => intro i h; simp at h
  | cons y rest ih =>
    intro i h
    rw [List.all_cons, Bool.and_eq_false_iff] at h
    match y with
    | Yaml.str s => exact ⟨ByteSliceErr.badType "string" i, rfl⟩
    | Yaml.list ys => exact ⟨ByteSliceErr.badType "[]interface {}" i, rfl⟩
    | Yaml.null => exact ⟨ByteSliceErr.badType "<nil>" i, rfl⟩
    | Yaml.intV v =>
      by_cases hv : v < 0 ∨ v > 255
      · exact ⟨ByteSliceErr.outOfRange v, by simp [parseByteSliceAux, hv]⟩
      · have hy : (decide (0 ≤ v ∧ v ≤ 255)) = true := by
          rw [decide_eq_true_iff]; omega
        rcases h with h | h
        · simp [hy] at h
        · obtain ⟨e, he⟩ := ih (i + 1) h
          exact ⟨e, by simp [parseByteSliceAux, hv, he]⟩

/-- The element-wise validity test of a yaml byte list: every element an int
in `[0,255]`. -/
def allByteInts (l : List Yaml) : Bool :=
  l.all fun y => match y with
    | Yaml.intV v => decide (0 ≤ v ∧ v ≤ 255)
    | _ => false

/-- Counterexample to C9 as stated: the element value `256` is rejected with
the error `value out of range for byte: 256`, which carries the offending
value but no index — the out-of-range error embeds no index in its message
(only the wrong-type error does). -/
theorem parseByteSlice_outOfRange_no_index :
    parseByteSlice [Yaml.intV 256] = Except.error (ByteSliceErr.outOfRange 256) ∧
    byteSliceErrIndex (ByteSliceErr.outOfRange 256) = none := by
  exact ⟨rfl, rfl⟩

/-- C9 amended: a `bytes` item validates exactly when its `find` list is
non-empty and every element of both lists is an int in `[0,255]`; the first
out-of-range element is rejected with an error carrying the offending value
(and no index — the index appears only in the wrong-type error). -/
theorem parse_bytes_range_validation :
    (∀ (cp : String → Except String String) (find repl : List Yaml),
       (ReplacerConfig.Parse cp
           { ReplacerType := "bytes", Find := Yaml.list find,
             Replace := Yaml.list repl }).isOk
         = (!find.isEmpty && allByteInts find && allByteInts repl)) ∧
    (∀ (v : Int) (i : Nat) (pre rest : List Yaml),
       allByteInts pre = true → (v < 0 ∨ 255 < v) →
       parseByteSliceAux i (pre ++ Yaml.intV v :: rest) =
         Except.error (ByteSliceErr.outOfRange v) ∧
       byteSliceErrIndex (ByteSliceErr.outOfRange v) = none) := by
  constructor
  · intro cp find repl
    have hunfold : ReplacerConfig.Parse cp
        { ReplacerType := "bytes", Find := Yaml.list find, Replace := Yaml.list repl }
      = (match parseByteSlice find with
         | Except.error e => Except.error (ParseErr.findBytesErr e)
         | Except.ok findBytes =>
           match parseByteSlice repl with
           | Except.error e => Except.error (ParseErr.replaceBytesErr e)
           | Except.ok replaceBytes =>
             if findBytes.isEmpty then Except.error ParseErr.noSearchBytes
             else Except.ok (ParsedReplacer.bytes ⟨findBytes, replaceBytes⟩)) := by
      rw [ReplacerConfig.Parse]
      rw [if_neg (show ("bytes" : String) ∉ ["substring", "str", "string", "ss", "substr"]
            from by decide),
          if_neg (show ("bytes" : String) ∉ ["regex", "regexp", "re", "reg"] from by decide),
          if_pos (show ("bytes" : String) = "bytes" from rfl)]
    rw [hunfold]
    by_cases hf : allByteInts find = true
    · obtain ⟨bs, hbs, hlen⟩ := parseByteSliceAux_ok find 0 hf
      by_cases hr : allByteInts repl = true
      · obtain ⟨bs2, hbs2, _⟩ := parseByteSliceAux_ok repl 0 hr
        rw [show parseByteSlice find = Except.ok bs from hbs,
            show parseByteSlice repl = Except.ok bs2 from hbs2, hf, hr]
        by_cases hemp : find.isEmpty
        · have : bs.isEmpty := by
            rw [List.isEmpty_iff_length_eq_zero] at hemp ⊢; omega
          simp [this, hemp, Except.isOk, Except.toBool]
        · have : ¬bs.isEmpty := by
            rw [List.isEmpty_iff_length_eq_zero] at hemp ⊢; omega
          simp [this, hemp, Except.isOk, Except.toBool]
      · obtain ⟨e, he⟩ := parseByteSliceAux_err repl 0 (by
          rw [← Bool.not_eq_true]; exact hr)
        rw [show parseByteSlice find = Except.ok bs from hbs,
            show parseByteSlice repl = Except.error e from he,
            show allByteInts repl = false by rw [← Bool.not_eq_true]; exact hr]
        simp [Except.isOk, Except.toBool]
    · obtain ⟨e, he⟩ := parseByteSliceAux_err find 0 (by
        rw [← Bool.not_eq_true]; exact hf)
      rw [show parseByteSlice find = Except.error e from he,
          show allByteInts find = false by rw [← Bool.not_eq_true]; exact hf]
      simp [Except.isOk, Except.toBool]
  · intro v i pre rest hpre hv
    refine ⟨?_, rfl⟩
    induction pre generalizing i with
    | nil =>
      have : v < 0 ∨ v > 255 := by omega
      simp [parseByteSliceAux, this]
    | cons y pre' ih =>
      rw [allByteInts, List.all_cons, Bool.and_eq_true] at hpre
      obtain ⟨hy, hrest⟩ := hpre
      match y with
      | Yaml.intV w =>
        have hw : 0 ≤ w ∧ w ≤ 255 := of_decide_eq_true hy
        have hcond : ¬(w < 0 ∨ w > 255) := by omega
        have := ih (i + 1) hrest
        simp [parseByteSliceAux, hcond, List.cons_append, this]

/-- Witness for C9's amended theorem at concrete inputs: a `bytes` item with
the single element `256` fails validation, and the lone out-of-range element
`300` yields the index-free out-of-range error. -/
theorem parse_bytes_range_validation_witness :
    (ReplacerConfig.Parse regexpCompileOk
        { ReplacerType := "bytes", Find := Yaml.list [Yaml.intV 256],
          Replace := Yaml.list [] }).isOk
      = (!([Yaml.intV 256] : List Yaml).isEmpty && allByteInts [Yaml.intV 256] &&
         allByteInts ([] : List Yaml)) ∧
    parseByteSliceAux 0 ([] ++ Yaml.intV 300 :: []) =
      Except.error (ByteSliceErr.outOfRange 300) ∧
    byteSliceErrIndex (ByteSliceErr.outOfRange 300) = none :=
  ⟨parse_bytes_range_validation.1 regexpCompileOk [Yaml.intV 256] [],
   (parse_bytes_range_validation.2 300 0 [] [] rfl (Or.inr (by decide))).1,
   (parse_bytes_range_validation.2 300 0 [] [] rfl (Or.inr (by decide))).2⟩

/-! ## `Replace` of the substring and byte-sequence variants (config.go 54-65)

`StringReplacer.Replace` converts the input bytes to a string, calls
`strings.ReplaceAll`, and converts back; `BytesReplacer.Replace` calls
`bytes.ReplaceAll` directly.  The two stdlib functions are separate
implementations of the same algorithm, one over the bytes of a string and
one over a byte slice; each is embedded below by its own definitions
(`...Str` for the strings package) and their agreement is proved, not
assumed.  With a non-empty pattern, `ReplaceAll` rewrites every
non-overlapping occurrence left to right; with an empty pattern it inserts
the replacement before the first byte and after every UTF-8 sequence
(invalid sequences advance one byte, as `utf8.DecodeRune` does). -/

/-- Whether an optional byte lies in `[lo, hi]` (utf8 acceptRanges test;
`none` means the input was exhausted, which is invalid). -/
def okRange (lo hi : Nat) : Option Nat → Bool
  | some b => decide (lo ≤ b ∧ b ≤ hi)
  | none => false

/-- `utf8.DecodeRune` advance-width minus one for a sequence starting with
byte `b` followed by `rest`: 0 for ASCII and every invalid or truncated
sequence, 1-3 for valid multi-byte sequences (Go's acceptRanges: E0 needs
A0-BF, ED needs 80-9F, F0 needs 90-BF, F4 needs 80-8F in the second byte). -/
def utf8Extra (b : Nat) (rest : List Nat) : Nat :=
  if b < 0xC2 then 0
  else if b ≤ 0xDF then (if okRange 0x80 0xBF rest[0]? then 1 else 0)
  else if b ≤ 0xEF then
    (if okRange (if b = 0xE0 then 0xA0 else 0x80) (if b = 0xED then 0x9F else 0xBF) rest[0]?
        && okRange 0x80 0xBF rest[1]? then 2 else 0)
  else if b ≤ 0xF4 then
    (if okRange (if b = 0xF0 then 0x90 else 0x80) (if b = 0xF4 then 0x8F else 0xBF) rest[0]?
        && okRange 0x80 0xBF rest[1]? && okRange 0x80 0xBF rest[2]? then 3 else 0)
  else 0

/-- `bytes.Replace` with an empty pattern: insert `new` before the first
byte, after every UTF-8 sequence, and after the last. -/
def insertEach (new : List Nat) : List Nat → List Nat
  | [] => new
  | b :: rest =>
    new ++ (b :: List.take (utf8Extra b rest) rest) ++
      insertEach new (List.drop (utf8Extra b rest) rest)
termination_by s => s.length
decreasing_by
  all_goals simp only [List.length_cons, List.length_drop]; omega

/-- `bytes.Replace` with the non-empty pattern `o :: os`: replace each
leftmost occurrence and continue after it. -/
def replaceScan (o : Nat) (os new : List Nat) : List Nat → List Nat
  | [] => []
  | b :: rest =>
    if (o :: os).isPrefixOf (b :: rest)
    then new ++ replaceScan o os new (List.drop os.length rest)
    else b :: replaceScan o os new rest
termination_by s => s.length
decreasing_by
  all_goals simp only [List.length_cons, List.length_drop]; omega

/-- `bytes.ReplaceAll`. -/
def bytesReplaceAll (s old new : List Nat) : List Nat :=
  match old with
  | [] => insertEach new s
  | o :: os => replaceScan o os new s

/-- The strings-package copy of `utf8Extra` (`utf8.DecodeRuneInString`). -/
def utf8ExtraStr (b : Nat) (rest : List Nat) : Nat :=
  if b < 0xC2 then 0
  else if b ≤ 0xDF then (if okRange 0x80 0xBF rest[0]? then 1 else 0)
  else if b ≤ 0xEF then
    (if okRange (if b = 0xE0 then 0xA0 else 0x80) (if b = 0xED then 0x9F else 0xBF) rest[0]?
        && okRange 0x80 0xBF rest[1]? then 2 else 0)
  else if b ≤ 0xF4 then
    (if okRange (if b = 0xF0 then 0x90 else 0x80) (if b = 0xF4 then 0x8F else 0xBF) rest[0]?
        && okRange 0x80 0xBF rest[1]? && okRange 0x80 0xBF rest[2]? then 3 else 0)
  else 0

/-- `strings.Replace` with an empty pattern, over the string's bytes. -/
def insertEachStr (new : List Nat) : List Nat → List Nat
  | [] => new
  | b :: rest =>
    new ++ (b :: List.take (utf8ExtraStr b rest) rest) ++
      insertEachStr new (List.drop (utf8ExtraStr b rest) rest)
termination_by s => s.length
decreasing_by
  all_goals simp only [List.length_cons, List.length_drop]; omega

/-- `strings.Replace` with a non-empty pattern, over the string's bytes. -/
def replaceScanStr (o : Nat) (os new : List Nat) : List Nat → List Nat
  | [] => []
  | b :: rest =>
    if (o :: os).isPrefixOf (b :: rest)
    then new ++ replaceScanStr o os new (List.drop os.length rest)
    else b :: replaceScanStr o os new rest
termination_by s => s.length
decreasing_by
  all_goals simp only [List.length_cons, List.length_drop]; omega

/-- `strings.ReplaceAll`. -/
def stringsReplaceAll (s old new : GoStr) : GoStr :=
  match old.data with
  | [] => ⟨insertEachStr new.data s.data⟩
  | o :: os => ⟨replaceScanStr o os new.data s.data⟩

/-- Go's `[]byte(s)` conversion: the string's bytes, copied verbatim. -/
def goStringToBytes (s : GoStr) : List Nat := s.data

/-- Go's `string(b)` conversion: a string holding exactly the bytes `b`. -/
def goBytesToString (b : List Nat) : GoStr := ⟨b⟩

/-- `StringReplacer.Replace` (config.go 62-65). -/
def StringReplacer.Replace (sr : StringReplacer) (inp : List Nat) : List Nat :=
  goStringToBytes (stringsReplaceAll (goBytesToString inp) sr.inS sr.outS)

/-- `BytesReplacer.Replace` (config.go 54-56). -/
def BytesReplacer.Replace (br : BytesReplacer) (src : List Nat) : List Nat :=
  bytesReplaceAll src br.In br.Out

/-- The empty-pattern loops of the strings and bytes packages agree. -/
theorem insertEachStr_eq (new : List Nat) : ∀ s, insertEachStr new s = insertEach new s := by
  intro s
  generalize hn : s.length = n
  induction n using Nat.strong_induction_on generalizing s with
  | _ n ih =>
    match s with
    | [] => simp [insertEachStr, insertEach]
    | b :: rest =>
      have hex : utf8ExtraStr b rest = utf8Extra b rest := rfl
      simp only [insertEachStr, insertEach, hex]
      congr 1
      exact ih _ (by subst hn; simp only [List.length_cons, List.length_drop]; omega) _ rfl

/-- The non-empty-pattern loops of the strings and bytes packages agree. -/
theorem replaceScanStr_eq (o : Nat) (os new : List Nat) :
    ∀ s, replaceScanStr o os new s = replaceScan o os new s := by
  intro s
  generalize hn : s.length = n
  induction n using Nat.strong_induction_on generalizing s with
  | _ n ih =>
    match s with
    | [] => simp [replaceScanStr, replaceScan]
    | b :: rest =>
      by_cases hp : (o :: os).isPrefixOf (b :: rest)
      · simp only [replaceScanStr, replaceScan, if_pos hp]
        congr 1
        exact ih _ (by subst hn; simp only [List.length_cons, List.length_drop]; omega) _ rfl
      · simp only [replaceScanStr, replaceScan, if_neg hp]
        congr 1
        exact ih _ (by subst hn; simp only [List.length_cons]; omega) _ rfl

/-- `strings.ReplaceAll` over a string's bytes equals `bytes.ReplaceAll`
over the same bytes. -/
theorem stringsReplaceAll_eq (s old new : GoStr) :
    (stringsReplaceAll s old new).data = bytesReplaceAll s.data old.data new.data := by
  obtain ⟨od⟩ := old
  match od with
  | [] => simpa [stringsReplaceAll, bytesReplaceAll] using insertEachStr_eq new.data s.data
  | o :: os => simpa [stringsReplaceAll, bytesReplaceAll] using replaceScanStr_eq o os new.data s.data

/-- C10: on every input byte sequence, the substring replacer built from the
strings `(find, replace)` produces exactly the bytes the byte-sequence
replacer built from those strings' bytes produces — the round-trip through
Go's string type preserves arbitrary bytes and the two stdlib ReplaceAll
implementations agree. -/
theorem stringReplacer_eq_bytesReplacer (find repl : GoStr) (b : List Nat) :
    StringReplacer.Replace ⟨find, repl⟩ b =
      BytesReplacer.Replace ⟨goStringToBytes find, goStringToBytes repl⟩ b := by
  simpa [StringReplacer.Replace, BytesReplacer.Replace, goStringToBytes, goBytesToString]
    using stringsReplaceAll_eq ⟨b⟩ find repl

end GoTcpProxy
